import Mathlib

/-!
Verification of the gif-utils frame compositor, snapshot-seek cache,
sequencer gate and exporter.

The definitions below are a shallow embedding of the TypeScript source:
* `compStep` embeds the per-frame body shared by `generateCompositedFrames`,
  `cropGif` and the render loop of `renderToFrame` (disposal of the previous
  frame, save-for-restore capture, patch draw).
* `generateCompositedFrames` and `cropGifFrames` embed the two full
  compositing passes in `src/lib/gif-processor.ts`.
* `renderToFrame` embeds the snapshot-cache seek path of the editor
  component, including the forward-continuation / closest-snapshot logic and
  the every-10th-frame snapshot store.
* `GateState` embeds the single-flight seek queue
  (`isRenderingRef` / `nextSeekFrameRef` / `processSeekQueue`) together with
  the playback loop that calls `renderToFrame` directly.

Canvas pixels are modelled as total functions from coordinates to RGBA
values; 2d-context operations (`clearRect`, `drawImage` with source-over
blending, `putImageData`, `getImageData`) are modelled exactly.
-/

namespace GifUtils

/-- An RGBA pixel with 8-bit channels (values are kept as naturals). -/
structure Pixel where
  r : Nat
  g : Nat
  b : Nat
  a : Nat
deriving DecidableEq, Repr

/-- The fully transparent pixel produced by `clearRect`. -/
def Pixel.transparent : Pixel := ⟨0, 0, 0, 0⟩

/-- A pixel is canonical when zero alpha forces the zero pixel; every pixel a
2d canvas can hold is canonical. -/
def Pixel.Canonical (p : Pixel) : Prop := p.a = 0 → p = Pixel.transparent

instance (p : Pixel) : Decidable p.Canonical := by
  unfold Pixel.Canonical; infer_instance

/-- Straight-alpha source-over blending, as performed by
`ctx.drawImage`: a fully transparent source leaves the destination pixel. -/
def Pixel.over (s d : Pixel) : Pixel :=
  if s.a = 0 then d
  else
    let wd := d.a * (255 - s.a) / 255
    let outA := s.a + wd
    ⟨(s.r * s.a + d.r * wd) / outA,
     (s.g * s.a + d.g * wd) / outA,
     (s.b * s.a + d.b * wd) / outA,
     outA⟩

/-- A full-frame canvas: pixel content at every coordinate. -/
def Canvas : Type := Nat → Nat → Pixel

/-- A freshly created canvas element: fully transparent. -/
def emptyCanvas : Canvas := fun _ _ => Pixel.transparent

/-- `ctx.clearRect(l, t, w, h)`: every pixel of the rectangle becomes
transparent, every other pixel is untouched. -/
def clearRect (c : Canvas) (l t w h : Nat) : Canvas :=
  fun x y =>
    if l ≤ x ∧ x < l + w ∧ t ≤ y ∧ y < t + h then Pixel.transparent else c x y

/-- One frame descriptor as produced by the decoder (`ParsedFrame`):
patch pixels in patch-local coordinates, the placement rectangle `dims`,
the delay and the numeric GIF disposal type. -/
structure Frame where
  patch : Nat → Nat → Pixel
  left : Nat
  top : Nat
  width : Nat
  height : Nat
  delay : Nat
  disposalType : Nat

/-- `ctx.drawImage(patchBitmap, left, top)`: source-over composite the patch
at its placement rectangle; pixels outside the rectangle are untouched. -/
def drawPatch (c : Canvas) (fr : Frame) : Canvas :=
  fun x y =>
    if fr.left ≤ x ∧ x < fr.left + fr.width ∧ fr.top ≤ y ∧ y < fr.top + fr.height then
      Pixel.over (fr.patch (x - fr.left) (y - fr.top)) (c x y)
    else c x y

/-- The pre-draw disposal of the previous frame, exactly as in the source:
disposal type 2 clears the previous placement rectangle, disposal type 3
restores the whole canvas from the saved buffer when one exists (and is a
no-op otherwise), every other type is a no-op. -/
def dispose (prev : Frame) (saved : Option Canvas) (c : Canvas) : Canvas :=
  if prev.disposalType = 2 then
    clearRect c prev.left prev.top prev.width prev.height
  else if prev.disposalType = 3 then
    match saved with
    | some s => s
    | none => c
  else c

/-- The disposal phase of the shared compositor body: when `i > 0`, apply
the disposal of frame `i - 1` to the live canvas. -/
def preDispose (frames : List Frame) (i : Nat) (st : Canvas × Option Canvas) : Canvas :=
  if 0 < i then
    match frames.get? (i - 1) with
    | some prev => dispose prev st.2 st.1
    | none => st.1
  else st.1

/-- The shared per-frame compositor body: dispose of frame `i - 1` (when
`i > 0`), capture the save-for-restore buffer when frame `i` itself has
disposal type 3, then draw the patch of frame `i`. The state is the live
canvas together with the `previousFrameData` buffer. -/
def compStep (frames : List Frame) (i : Nat) (st : Canvas × Option Canvas) :
    Canvas × Option Canvas :=
  match frames.get? i with
  | none => st
  | some fr =>
    let c1 := preDispose frames i st
    let saved := if fr.disposalType = 3 then some c1 else st.2
    (drawPatch c1 fr, saved)

/-- State after sequentially compositing frames `0 .. n-1` from an empty
canvas with no saved buffer. -/
def compositeUpTo (frames : List Frame) : Nat → Canvas × Option Canvas
  | 0 => (emptyCanvas, none)
  | n + 1 => compStep frames n (compositeUpTo frames n)

/-- Fuelled loop body of `generateCompositedFrames`: starting at index `i`,
run the shared compositor step on each remaining frame and record the full
canvas after each draw. -/
def genAux (frames : List Frame) (i : Nat) (st : Canvas × Option Canvas) :
    Nat → List Canvas
  | 0 => []
  | n + 1 =>
    match frames.get? i with
    | none => []
    | some _ =>
      let st1 := compStep frames i st
      st1.1 :: genAux frames (i + 1) st1 n

/-- `generateCompositedFrames` from `gif-processor.ts`: the list of
full-frame canvases obtained by compositing every frame in order on a fresh
canvas. -/
def generateCompositedFrames (frames : List Frame) : List Canvas :=
  genAux frames 0 (emptyCanvas, none) frames.length

/-- The crop extraction step of `cropGif`: clear the crop canvas, then
`drawImage(tempCanvas, cx, cy, cw, ch, 0, 0, cw, ch)`. -/
def cropExtract (c : Canvas) (cx cy cw ch : Nat) : Canvas :=
  fun x y =>
    if x < cw ∧ y < ch then Pixel.over (c (cx + x) (cy + y)) Pixel.transparent
    else Pixel.transparent

/-- Fuelled loop body of `cropGif`: composite each frame with the shared
compositor step on a fresh canvas, then emit the cropped canvas together
with the original frame delay. -/
def emitAux (frames : List Frame) (cx cy cw ch : Nat) (i : Nat)
    (st : Canvas × Option Canvas) : Nat → List (Canvas × Nat)
  | 0 => []
  | n + 1 =>
    match frames.get? i with
    | none => []
    | some fr =>
      let st1 := compStep frames i st
      (cropExtract st1.1 cx cy cw ch, fr.delay) :: emitAux frames cx cy cw ch (i + 1) st1 n

/-- `cropGif` from `gif-processor.ts`, restricted to the frames it hands to
the encoder: a fresh compositing pass over exactly the frame list it is
given, emitting `(cropped canvas, original delay)` pairs. -/
def cropGifFrames (frames : List Frame) (cx cy cw ch : Nat) : List (Canvas × Nat) :=
  emitAux frames cx cy cw ch 0 (emptyCanvas, none) frames.length

/-- The decoded container handed to `parseGifFile`: the logical screen
dimensions from the GIF header plus the decompressed frames. -/
structure ParsedGif where
  lsdWidth : Nat
  lsdHeight : Nat
  frames : List Frame

/-- `GifData`: the parse result consumed by every later stage. -/
structure GifData where
  frames : List Frame
  width : Nat
  height : Nat

/-- `parseGifFile`: reject an empty frame list, otherwise report the
dimensions of the first frame patch rectangle (`frames[0].dims`) as the
animation dimensions. -/
def parseGifFile (g : ParsedGif) : Except String GifData :=
  match g.frames with
  | [] => Except.error "Could not parse GIF frames."
  | f0 :: _ => Except.ok ⟨g.frames, f0.width, f0.height⟩

/-- `const clamp = (value, min, max) => Math.min(Math.max(value, min), max)`
from `handleExport`. -/
def clampTo (value lo hi : Int) : Int := min (max value lo) hi

/-- The crop rectangle in `react-image-crop` pixel units as consumed by
`handleExport` (coordinates already rounded to integers). -/
structure PixelCrop where
  x : Int
  y : Int
  width : Int
  height : Int
deriving DecidableEq, Repr

/-- The crop-rectangle computation of `handleExport`: clamp each requested
value into the canvas instead of validating it. -/
def exportCropRect (gw gh : Nat) (c : PixelCrop) : Int × Int × Int × Int :=
  let cropX := clampTo c.x 0 ((gw : Int) - 1)
  let cropY := clampTo c.y 0 ((gh : Int) - 1)
  let cropW := clampTo c.width 1 ((gw : Int) - cropX)
  let cropH := clampTo c.height 1 ((gh : Int) - cropY)
  (cropX, cropY, cropW, cropH)

/-- `handleExport`: slice the frames to the trim range, then run `cropGif`
over the slice, with the clamped crop rectangle when a crop with nonzero
width and height is present and with the full canvas otherwise. -/
def handleExport (d : GifData) (trimStart trimEnd : Nat)
    (appliedCrop completedCrop : Option PixelCrop) : List (Canvas × Nat) :=
  let trimmedFrames := (d.frames.drop trimStart).take (trimEnd + 1 - trimStart)
  let exportCrop := appliedCrop.orElse fun _ => completedCrop
  match exportCrop with
  | some c =>
    if c.width ≠ 0 ∧ c.height ≠ 0 then
      let r := exportCropRect d.width d.height c
      cropGifFrames trimmedFrames r.1.toNat r.2.1.toNat r.2.2.1.toNat r.2.2.2.toNat
    else cropGifFrames trimmedFrames 0 0 d.width d.height
  | none => cropGifFrames trimmedFrames 0 0 d.width d.height

/-- `frameForDelay?.delay || 100` from the playback loop: a missing frame or
a zero delay falls back to the fixed 100 ms interval. -/
def updateInterval (fr : Option Frame) : Nat :=
  match fr with
  | none => 100
  | some f => if f.delay = 0 then 100 else f.delay

/-- The mutable state of the editor render path: the composition canvas,
`lastRenderedFrameRef` (`none` models the `-1` sentinel) and the snapshot
map in insertion order. -/
structure SessionState where
  canvas : Canvas
  lastRendered : Option Nat
  snapshots : List (Nat × Canvas)

/-- The state right after a file is loaded: fresh canvas, no last rendered
frame, empty snapshot map. -/
def initSession : SessionState :=
  { canvas := emptyCanvas, lastRendered := none, snapshots := [] }

/-- The closest-snapshot scan of `renderToFrame`: the greatest cached index
that is at most the target, scanned in map iteration order. -/
def findClosest (snaps : List (Nat × Canvas)) (target : Nat) : Option Nat :=
  snaps.foldl
    (fun acc p =>
      if p.1 ≤ target then
        match acc with
        | none => some p.1
        | some c => if c < p.1 then some p.1 else acc
      else acc)
    none

/-- `snapshotsRef.current.get(i)`. -/
def lookupSnap (snaps : List (Nat × Canvas)) (i : Nat) : Option Canvas :=
  (snaps.find? fun p => p.1 == i).map Prod.snd

/-- `snapshotsRef.current.has(i)`. -/
def hasSnap (snaps : List (Nat × Canvas)) (i : Nat) : Bool :=
  snaps.any fun p => p.1 == i

/-- Step 1 of `renderToFrame`: choose the start frame and the snapshot to
restore. Forward continuation when the target is at or past the last
rendered frame, otherwise the closest snapshot at or below the target,
otherwise a cold start from index 0. -/
def seekPlan (st : SessionState) (target : Nat) : Nat × Option Canvas :=
  match st.lastRendered with
  | some last =>
    if last ≤ target then (last + 1, none)
    else
      match findClosest st.snapshots target with
      | some c => (c + 1, lookupSnap st.snapshots c)
      | none => (0, none)
  | none =>
    match findClosest st.snapshots target with
    | some c => (c + 1, lookupSnap st.snapshots c)
    | none => (0, none)

/-- `ctx.drawImage(restoreSnapshot, 0, 0)`: source-over draw of the stored
`w × h` snapshot bitmap at the origin. -/
def drawSnap (c snap : Canvas) (w h : Nat) : Canvas :=
  fun x y => if x < w ∧ y < h then Pixel.over (snap x y) (c x y) else c x y

/-- The fuelled render loop of `renderToFrame` (step 3): run the shared
compositor step from the start frame, storing a frozen snapshot after every
composited index that is a multiple of 10 and not cached yet. -/
def renderLoopAux (frames : List Frame) (i : Nat) (st : Canvas × Option Canvas)
    (snaps : List (Nat × Canvas)) : Nat → (Canvas × Option Canvas) × List (Nat × Canvas)
  | 0 => (st, snaps)
  | n + 1 =>
    let st1 := compStep frames i st
    let snaps1 :=
      if i % 10 = 0 ∧ hasSnap snaps i = false then snaps ++ [(i, st1.1)]
      else snaps
    renderLoopAux frames (i + 1) st1 snaps1 n

/-- `renderToFrame(targetFrame, data, canvas, ctx)`: pick the start point,
restore the canvas (full clear on a cold start, clear plus snapshot draw on
a snapshot restore, nothing on forward continuation), replay the frames up
to the target with a fresh local `previousFrameData`, then record the
target as the last rendered frame. -/
def renderToFrame (frames : List Frame) (w h : Nat) (target : Nat)
    (st : SessionState) : SessionState :=
  let plan := seekPlan st target
  let startFrame := plan.1
  let canvas1 :=
    if startFrame = 0 then clearRect st.canvas 0 0 w h
    else
      match plan.2 with
      | some snap => drawSnap (clearRect st.canvas 0 0 w h) snap w h
      | none => st.canvas
  let res := renderLoopAux frames startFrame (canvas1, none) st.snapshots
    (target + 1 - startFrame)
  { canvas := res.1.1, lastRendered := some target, snapshots := res.2 }

/-- The state of the seek gate: `isRenderingRef`, the single pending slot
`nextSeekFrameRef`, and counters for the renders currently in flight,
split by whether they were started by `performRender` (seeks) or directly
by the playback loop (ticks). -/
structure GateState where
  isRendering : Bool
  nextSeek : Option Nat
  seekInFlight : Nat
  tickInFlight : Nat
deriving DecidableEq, Repr

/-- The gate state on mount. -/
def initGate : GateState :=
  { isRendering := false, nextSeek := none, seekInFlight := 0, tickInFlight := 0 }

/-- `processSeekQueue`: bail out while a render is in flight, otherwise
consume the pending slot and start a render for it. -/
def processSeekQueue (g : GateState) : GateState :=
  if g.isRendering then g
  else
    match g.nextSeek with
    | some _ =>
      { g with nextSeek := none, isRendering := true, seekInFlight := g.seekInFlight + 1 }
    | none => g

/-- The observable gate events: a manual seek request, completion of a
seek-initiated render (which re-runs `processSeekQueue`), a playback tick
whose accumulated time elapsed (which starts a render directly), and
completion of such a tick render. -/
inductive GateEvent where
  | seek (n : Nat)
  | finishSeek
  | tick
  | finishTick
deriving DecidableEq, Repr

/-- One gate transition. A `seek` overwrites the pending slot and runs
`processSeekQueue`; `finishSeek` clears `isRenderingRef` and runs
`processSeekQueue` again; a playback `tick` calls `renderToFrame` directly,
without consulting the gate. -/
def stepGate (g : GateState) : GateEvent → GateState
  | GateEvent.seek n => processSeekQueue { g with nextSeek := some n }
  | GateEvent.finishSeek =>
    if g.seekInFlight = 0 then g
    else processSeekQueue
      { g with isRendering := false, seekInFlight := g.seekInFlight - 1 }
  | GateEvent.tick => { g with tickInFlight := g.tickInFlight + 1 }
  | GateEvent.finishTick => { g with tickInFlight := g.tickInFlight - 1 }

/-- Run a sequence of gate events from a state. -/
def runGate (g : GateState) (evs : List GateEvent) : GateState :=
  evs.foldl stepGate g

/-- The playback / seek state of the editor component that `handleSeek`
touches. -/
structure EditorState where
  currentFrameIdx : Nat
  isPlaying : Bool
  gate : GateState
deriving DecidableEq, Repr

/-- `handleSeek(index)`: set the current frame, stop playback, write the
pending slot and run `processSeekQueue`. -/
def handleSeek (st : EditorState) (index : Nat) : EditorState :=
  { currentFrameIdx := index
    isPlaying := false
    gate := processSeekQueue { st.gate with nextSeek := some index } }

/-- A frame with a constant patch, used for concrete instances. -/
def mkFrame (p : Pixel) (l t w h delay disp : Nat) : Frame :=
  ⟨fun _ _ => p, l, t, w, h, delay, disp⟩

/-! ### Pixel lemmas -/

theorem Pixel.over_transparent (s : Pixel) (hs : s.Canonical) :
    Pixel.over s Pixel.transparent = s := by
  by_cases h : s.a = 0
  · rw [hs h]; rfl
  · cases s with
    | mk r g b a =>
      simp only at h
      unfold Pixel.over
      simp [Pixel.transparent, h, Nat.mul_div_cancel _ (Nat.pos_of_ne_zero h)]

theorem Pixel.over_canonical (s d : Pixel) (hd : d.Canonical) :
    (Pixel.over s d).Canonical := by
  unfold Pixel.over
  by_cases h : s.a = 0
  · simpa [h] using hd
  · intro ha
    simp only [h, if_false] at ha
    exact absurd ha (by simp; omega)

/-- Every pixel of a canvas is canonical. -/
def CanvasCanonical (c : Canvas) : Prop := ∀ x y, (c x y).Canonical

theorem emptyCanvas_canonical : CanvasCanonical emptyCanvas := by
  intro x y _
  rfl

theorem clearRect_canonical (c : Canvas) (hc : CanvasCanonical c) (l t w h : Nat) :
    CanvasCanonical (clearRect c l t w h) := by
  intro x y
  unfold clearRect
  split
  · intro _; rfl
  · exact hc x y

theorem drawPatch_canonical (c : Canvas) (hc : CanvasCanonical c) (fr : Frame) :
    CanvasCanonical (drawPatch c fr) := by
  intro x y
  unfold drawPatch
  split
  · exact Pixel.over_canonical _ _ (hc x y)
  · exact hc x y

theorem dispose_canonical (prev : Frame) (saved : Option Canvas) (c : Canvas)
    (hc : CanvasCanonical c)
    (hs : ∀ s, saved = some s → CanvasCanonical s) :
    CanvasCanonical (dispose prev saved c) := by
  unfold dispose
  split
  · exact clearRect_canonical c hc _ _ _ _
  · split
    · match saved, hs with
      | some s, hs => exact hs s rfl
      | none, _ => exact hc
    · exact hc

/-- Joint canonicity of a compositor state: the live canvas and, when
present, the saved buffer. -/
def StateCanonical (st : Canvas × Option Canvas) : Prop :=
  CanvasCanonical st.1 ∧ ∀ s, st.2 = some s → CanvasCanonical s

theorem preDispose_canonical (frames : List Frame) (i : Nat)
    (st : Canvas × Option Canvas) (hst : StateCanonical st) :
    CanvasCanonical (preDispose frames i st) := by
  unfold preDispose
  split
  · match frames.get? (i - 1) with
    | some prev => exact dispose_canonical prev st.2 st.1 hst.1 hst.2
    | none => exact hst.1
  · exact hst.1

/-- Unfolding equation for `compStep` on an in-range index. -/
theorem compStep_eq_some (frames : List Frame) (i : Nat) (fr : Frame)
    (st : Canvas × Option Canvas) (hfr : frames.get? i = some fr) :
    compStep frames i st =
      (drawPatch (preDispose frames i st) fr,
       if fr.disposalType = 3 then some (preDispose frames i st) else st.2) := by
  unfold compStep
  rw [hfr]

/-- Unfolding equation for `compStep` on an out-of-range index. -/
theorem compStep_eq_none (frames : List Frame) (i : Nat)
    (st : Canvas × Option Canvas) (hfr : frames.get? i = none) :
    compStep frames i st = st := by
  unfold compStep
  rw [hfr]

theorem compStep_canonical (frames : List Frame) (i : Nat)
    (st : Canvas × Option Canvas) (hst : StateCanonical st) :
    StateCanonical (compStep frames i st) := by
  match hfr : frames.get? i with
  | none => rw [compStep_eq_none frames i st hfr]; exact hst
  | some fr =>
    rw [compStep_eq_some frames i fr st hfr]
    have hc1 := preDispose_canonical frames i st hst
    refine ⟨drawPatch_canonical _ hc1 fr, ?_⟩
    intro s hsme
    by_cases hd : fr.disposalType = 3
    · simp only [hd, if_pos] at hsme
      cases hsme
      exact hc1
    · simp only [hd, if_neg, if_false] at hsme
      exact hst.2 s hsme

theorem compositeUpTo_canonical (frames : List Frame) (n : Nat) :
    StateCanonical (compositeUpTo frames n) := by
  induction n with
  | zero => exact ⟨emptyCanvas_canonical, by intro s h; cases h⟩
  | succ n ih => exact compStep_canonical frames n _ ih

/-! ### Pointwise evolution without RestorePrevious frames -/

/-- Two canvases agree on every pixel of the `w × h` canvas region. -/
def eqOn (w h : Nat) (c1 c2 : Canvas) : Prop :=
  ∀ x y, x < w → y < h → c1 x y = c2 x y

/-- The canvas after sequentially compositing frames `0 .. n-1`. -/
def seqCanvas (frames : List Frame) (n : Nat) : Canvas :=
  (compositeUpTo frames n).1

/-- No frame of the sequence carries disposal type 3 (RestorePrevious). -/
def NoRestore (frames : List Frame) : Prop :=
  ∀ f ∈ frames, f.disposalType ≠ 3

theorem dispose_none_pointwise (prev : Frame) (c1 c2 : Canvas) (x y : Nat)
    (h : c1 x y = c2 x y) :
    dispose prev none c1 x y = dispose prev none c2 x y := by
  unfold dispose clearRect
  split
  · simp only
    split
    · rfl
    · exact h
  · split
    · exact h
    · exact h

theorem preDispose_none_pointwise (frames : List Frame) (i : Nat)
    (c1 c2 : Canvas) (x y : Nat) (h : c1 x y = c2 x y) :
    preDispose frames i (c1, none) x y = preDispose frames i (c2, none) x y := by
  unfold preDispose
  split
  · match frames.get? (i - 1) with
    | some prev => exact dispose_none_pointwise prev c1 c2 x y h
    | none => exact h
  · exact h

theorem compStep_fst_pointwise (frames : List Frame) (i : Nat)
    (c1 c2 : Canvas) (x y : Nat) (h : c1 x y = c2 x y) :
    (compStep frames i (c1, none)).1 x y = (compStep frames i (c2, none)).1 x y := by
  match hfr : frames.get? i with
  | none =>
    rw [compStep_eq_none frames i _ hfr, compStep_eq_none frames i _ hfr]
    exact h
  | some fr =>
    rw [compStep_eq_some frames i fr _ hfr, compStep_eq_some frames i fr _ hfr]
    simp only [drawPatch]
    have hpre := preDispose_none_pointwise frames i c1 c2 x y h
    split
    · rw [hpre]
    · exact hpre

theorem compStep_snd_none (frames : List Frame) (i : Nat) (c : Canvas)
    (h3 : NoRestore frames) : (compStep frames i (c, none)).2 = none := by
  match hfr : frames.get? i with
  | none => rw [compStep_eq_none frames i _ hfr]
  | some fr =>
    rw [compStep_eq_some frames i fr _ hfr]
    simp [h3 fr (List.get?_mem hfr)]

theorem compositeUpTo_snd_none (frames : List Frame) (h3 : NoRestore frames) :
    ∀ n, (compositeUpTo frames n).2 = none
  | 0 => rfl
  | n + 1 => by
    have ih := compositeUpTo_snd_none frames h3 n
    have heta : compositeUpTo frames n = (seqCanvas frames n, none) := by
      rw [← ih]
      exact rfl
    show (compStep frames n (compositeUpTo frames n)).2 = none
    rw [heta]
    exact compStep_snd_none frames n _ h3

theorem seqCanvas_succ (frames : List Frame) (h3 : NoRestore frames) (n : Nat) :
    seqCanvas frames (n + 1) = (compStep frames n (seqCanvas frames n, none)).1 := by
  have heta : compositeUpTo frames n = (seqCanvas frames n, none) := by
    rw [← compositeUpTo_snd_none frames h3 n]
    exact rfl
  show (compStep frames n (compositeUpTo frames n)).1 = _
  rw [heta]

theorem seqCanvas_canonical (frames : List Frame) (n : Nat) :
    CanvasCanonical (seqCanvas frames n) :=
  (compositeUpTo_canonical frames n).1

/-! ### Snapshot map lemmas -/

theorem findClosest_spec (snaps : List (Nat × Canvas)) (target : Nat) (c : Nat)
    (h : findClosest snaps target = some c) :
    c ≤ target ∧ ∃ cv, (c, cv) ∈ snaps := by
  have key : ∀ (l : List (Nat × Canvas)) (acc : Option Nat),
      l.foldl
        (fun acc p =>
          if p.1 ≤ target then
            match acc with
            | none => some p.1
            | some c0 => if c0 < p.1 then some p.1 else acc
          else acc)
        acc = some c →
      acc = some c ∨ (c ≤ target ∧ ∃ cv, (c, cv) ∈ l) := by
    intro l
    induction l with
    | nil => intro acc hacc; exact Or.inl hacc
    | cons p l ih =>
      intro acc hacc
      rcases ih _ hacc with hstep | ⟨hle, cv, hmem⟩
      · by_cases hp : p.1 ≤ target
        · simp only [hp, if_pos] at hstep
          match acc, hstep with
          | none, hstep =>
            cases hstep
            exact Or.inr ⟨hp, p.2, by simp⟩
          | some c0, hstep =>
            by_cases hlt : c0 < p.1
            · simp only [hlt, if_pos] at hstep
              cases hstep
              exact Or.inr ⟨hp, p.2, by simp⟩
            · simp only [hlt, if_neg, if_false] at hstep
              exact Or.inl hstep
        · simp only [hp, if_neg, if_false] at hstep
          exact Or.inl hstep
      · exact Or.inr ⟨hle, cv, List.mem_cons_of_mem p hmem⟩
  rcases key snaps none h with hnone | hres
  · cases hnone
  · exact hres

theorem lookupSnap_mem (snaps : List (Nat × Canvas)) (i : Nat) (cv : Canvas)
    (h : lookupSnap snaps i = some cv) : (i, cv) ∈ snaps := by
  unfold lookupSnap at h
  match hf : snaps.find? fun p => p.1 == i with
  | none => rw [hf] at h; cases h
  | some p =>
    rw [hf] at h
    cases h
    have hp := List.find?_some hf
    have hmem := List.mem_of_find?_eq_some hf
    have : p.1 = i := by simpa using hp
    have : p = (i, p.2) := by
      cases p
      simp_all
    rw [← this]
    exact hmem

theorem lookupSnap_isSome (snaps : List (Nat × Canvas)) (i : Nat) (cv : Canvas)
    (hmem : (i, cv) ∈ snaps) : ∃ snap, lookupSnap snaps i = some snap := by
  unfold lookupSnap
  match hf : snaps.find? fun p => p.1 == i with
  | some p => exact ⟨p.2, by rw [hf]; rfl⟩
  | none =>
    exfalso
    have := List.find?_eq_none.1 hf (i, cv) hmem
    simp at this

/-- Every stored snapshot equals, on the canvas region, the sequential
composite of the prefix ending at its index. -/
def SnapsGood (frames : List Frame) (w h : Nat) (snaps : List (Nat × Canvas)) : Prop :=
  ∀ p ∈ snaps, eqOn w h p.2 (seqCanvas frames (p.1 + 1))

/-! ### The render loop -/

theorem renderLoopAux_ok (frames : List Frame) (w h : Nat) (h3 : NoRestore frames) :
    ∀ (n i : Nat) (c : Canvas) (snaps : List (Nat × Canvas)),
      eqOn w h c (seqCanvas frames i) →
      SnapsGood frames w h snaps →
      eqOn w h ((renderLoopAux frames i (c, none) snaps n).1.1) (seqCanvas frames (i + n)) ∧
      SnapsGood frames w h ((renderLoopAux frames i (c, none) snaps n).2) := by
  intro n
  induction n with
  | zero => intro i c snaps hc hs; exact ⟨hc, hs⟩
  | succ n ih =>
    intro i c snaps hc hs
    show
      eqOn w h ((renderLoopAux frames (i + 1) (compStep frames i (c, none))
        (if i % 10 = 0 ∧ hasSnap snaps i = false
          then snaps ++ [(i, (compStep frames i (c, none)).1)] else snaps) n).1.1)
        (seqCanvas frames (i + (n + 1))) ∧
      SnapsGood frames w h ((renderLoopAux frames (i + 1) (compStep frames i (c, none))
        (if i % 10 = 0 ∧ hasSnap snaps i = false
          then snaps ++ [(i, (compStep frames i (c, none)).1)] else snaps) n).2)
    have hstep : compStep frames i (c, none) = ((compStep frames i (c, none)).1, none) :=
      Prod.ext rfl (compStep_snd_none frames i c h3)
    have hc1 : eqOn w h ((compStep frames i (c, none)).1) (seqCanvas frames (i + 1)) := by
      intro x y hx hy
      rw [seqCanvas_succ frames h3 i]
      exact compStep_fst_pointwise frames i c (seqCanvas frames i) x y (hc x y hx hy)
    have hs1 : SnapsGood frames w h
        (if i % 10 = 0 ∧ hasSnap snaps i = false
          then snaps ++ [(i, (compStep frames i (c, none)).1)] else snaps) := by
      split
      · intro p hp
        rcases List.mem_append.1 hp with hp | hp
        · exact hs p hp
        · have : p = (i, (compStep frames i (c, none)).1) := by simpa using hp
          rw [this]
          exact hc1
      · exact hs
    have := ih (i + 1) ((compStep frames i (c, none)).1) _ hc1 hs1
    rw [hstep]
    have harith : i + 1 + n = i + (n + 1) := by omega
    rw [harith] at this
    exact this

/-- Characterization of the snapshot keys produced by the render loop: a key
is present afterwards iff it was present before or it is a visited index
that is a multiple of 10. -/
theorem renderLoopAux_hasSnap (frames : List Frame) :
    ∀ (n i : Nat) (st : Canvas × Option Canvas) (snaps : List (Nat × Canvas)) (j : Nat),
      hasSnap (renderLoopAux frames i st snaps n).2 j = true ↔
        (hasSnap snaps j = true ∨ (i ≤ j ∧ j < i + n ∧ j % 10 = 0)) := by
  intro n
  induction n with
  | zero =>
    intro i st snaps j
    constructor
    · intro hj; exact Or.inl hj
    · intro hj
      rcases hj with hj | hj
      · exact hj
      · omega
  | succ n ih =>
    intro i st snaps j
    show hasSnap (renderLoopAux frames (i + 1) (compStep frames i st)
        (if i % 10 = 0 ∧ hasSnap snaps i = false
          then snaps ++ [(i, (compStep frames i st).1)] else snaps) n).2 j = true ↔ _
    rw [ih]
    have happ : ∀ cv, hasSnap (snaps ++ [(i, cv)]) j = (hasSnap snaps j || (i == j)) := by
      intro cv
      unfold hasSnap
      rw [List.any_append]
      simp
    by_cases hcond : i % 10 = 0 ∧ hasSnap snaps i = false
    · rw [if_pos hcond, happ]
      constructor
      · intro hj
        rcases hj with hj | hj
        · rcases Bool.or_eq_true_iff.1 hj with hj | hj
          · exact Or.inl hj
          · have : i = j := by simpa using hj
            exact Or.inr ⟨by omega, by omega, by rw [← this]; exact hcond.1⟩
        · exact Or.inr ⟨by omega, by omega, hj.2.2⟩
      · intro hj
        rcases hj with hj | ⟨hij, hjn, hj10⟩
        · exact Or.inl (Bool.or_eq_true_iff.2 (Or.inl hj))
        · by_cases hji : j = i
          · exact Or.inl (Bool.or_eq_true_iff.2 (Or.inr (by simp [hji])))
          · exact Or.inr ⟨by omega, by omega, hj10⟩
    · rw [if_neg hcond]
      constructor
      · intro hj
        rcases hj with hj | hj
        · exact Or.inl hj
        · exact Or.inr ⟨by omega, by omega, hj.2.2⟩
      · intro hj
        rcases hj with hj | ⟨hij, hjn, hj10⟩
        · exact Or.inl hj
        · by_cases hji : j = i
          · rcases Decidable.not_and_iff_or_not.1 hcond with hcond | hcond
            · exact absurd (hji ▸ hj10) hcond
            · have : hasSnap snaps i = true := by
                cases hhs : hasSnap snaps i with
                | false => exact absurd hhs hcond
                | true => rfl
              exact Or.inl (hji ▸ this)
          · exact Or.inr ⟨by omega, by omega, hj10⟩

/-! ### The session invariant of the snapshot cache -/

/-- Invariant of the interactive session: whenever a last rendered frame is
recorded, the live canvas equals the sequential composite up to it, and all
stored snapshots are correct. -/
def SessionInv (frames : List Frame) (w h : Nat) (st : SessionState) : Prop :=
  (∀ l, st.lastRendered = some l → eqOn w h st.canvas (seqCanvas frames (l + 1))) ∧
  SnapsGood frames w h st.snapshots

theorem initSession_inv (frames : List Frame) (w h : Nat) :
    SessionInv frames w h initSession := by
  constructor
  · intro l hl; cases hl
  · intro p hp; cases hp

theorem seekPlan_le (st : SessionState) (target : Nat) :
    (seekPlan st target).1 ≤ target + 1 := by
  unfold seekPlan
  match st.lastRendered with
  | some last =>
    by_cases hle : last ≤ target
    · simp only [hle, if_pos]
      omega
    · simp only [hle, if_neg, if_false]
      match hfc : findClosest st.snapshots target with
      | some c =>
        have := (findClosest_spec st.snapshots target c hfc).1
        simp
        omega
      | none => simp
  | none =>
    match hfc : findClosest st.snapshots target with
    | some c =>
      have := (findClosest_spec st.snapshots target c hfc).1
      simp
      omega
    | none => simp

/-- The restored canvas at the start of the replay agrees with the
sequential composite at the start frame. -/
theorem seekPlan_canvas_ok (frames : List Frame) (w h : Nat) (st : SessionState)
    (target : Nat) (hInv : SessionInv frames w h st) :
    eqOn w h
      (if (seekPlan st target).1 = 0 then clearRect st.canvas 0 0 w h
        else
          match (seekPlan st target).2 with
          | some snap => drawSnap (clearRect st.canvas 0 0 w h) snap w h
          | none => st.canvas)
      (seqCanvas frames (seekPlan st target).1) := by
  have hclear : ∀ x y, x < w → y < h →
      clearRect st.canvas 0 0 w h x y = Pixel.transparent := by
    intro x y hx hy
    unfold clearRect
    rw [if_pos]
    omega
  have hbackward : ∀ c : Nat,
      findClosest st.snapshots target = some c →
      eqOn w h
        (match lookupSnap st.snapshots c with
          | some snap => drawSnap (clearRect st.canvas 0 0 w h) snap w h
          | none => st.canvas)
        (seqCanvas frames (c + 1)) := by
    intro c hfc
    rcases (findClosest_spec st.snapshots target c hfc).2 with ⟨cv, hmem⟩
    rcases lookupSnap_isSome st.snapshots c cv hmem with ⟨snap, hsnap⟩
    rw [hsnap]
    intro x y hx hy
    have hsnapmem := lookupSnap_mem st.snapshots c snap hsnap
    have hgood : snap x y = seqCanvas frames (c + 1) x y :=
      hInv.2 (c, snap) hsnapmem x y hx hy
    show (if x < w ∧ y < h then
        Pixel.over (snap x y) (clearRect st.canvas 0 0 w h x y)
      else clearRect st.canvas 0 0 w h x y) = seqCanvas frames (c + 1) x y
    rw [if_pos ⟨hx, hy⟩, hclear x y hx hy]
    rw [Pixel.over_transparent (snap x y)
      (by rw [hgood]; exact seqCanvas_canonical frames (c + 1) x y)]
    exact hgood
  unfold seekPlan
  match hlr : st.lastRendered with
  | some last =>
    by_cases hle : last ≤ target
    · simp only [hle, if_pos, if_neg (Nat.succ_ne_zero last)]
      exact hInv.1 last hlr
    · simp only [hle, if_neg, if_false]
      match hfc : findClosest st.snapshots target with
      | some c =>
        simp only [if_neg (Nat.succ_ne_zero c)]
        exact hbackward c hfc
      | none =>
        intro x y hx hy
        show clearRect st.canvas 0 0 w h x y = seqCanvas frames 0 x y
        rw [hclear x y hx hy]
        rfl
  | none =>
    match hfc : findClosest st.snapshots target with
    | some c =>
      simp only [if_neg (Nat.succ_ne_zero c)]
      exact hbackward c hfc
    | none =>
      intro x y hx hy
      show clearRect st.canvas 0 0 w h x y = seqCanvas frames 0 x y
      rw [hclear x y hx hy]
      rfl

/-- `renderToFrame` preserves the session invariant and leaves the live
canvas at the sequential composite of the target prefix. -/
theorem renderToFrame_ok (frames : List Frame) (w h : Nat) (h3 : NoRestore frames)
    (st : SessionState) (target : Nat) (hInv : SessionInv frames w h st) :
    SessionInv frames w h (renderToFrame frames w h target st) ∧
    eqOn w h (renderToFrame frames w h target st).canvas
      (seqCanvas frames (target + 1)) := by
  have hle := seekPlan_le st target
  have hc1 := seekPlan_canvas_ok frames w h st target hInv
  have hloop := renderLoopAux_ok frames w h h3 (target + 1 - (seekPlan st target).1)
    (seekPlan st target).1 _ st.snapshots hc1 hInv.2
  have harith : (seekPlan st target).1 + (target + 1 - (seekPlan st target).1) = target + 1 := by
    omega
  rw [harith] at hloop
  refine ⟨⟨?_, ?_⟩, ?_⟩
  · intro l hl
    have htl : target = l := by
      simpa [renderToFrame] using hl
    rw [← htl]
    exact hloop.1
  · exact hloop.2
  · exact hloop.1

theorem foldl_renderToFrame_inv (frames : List Frame) (w h : Nat)
    (h3 : NoRestore frames) :
    ∀ (seeks : List Nat) (st : SessionState), SessionInv frames w h st →
      SessionInv frames w h
        (seeks.foldl (fun st s => renderToFrame frames w h s st) st) := by
  intro seeks
  induction seeks with
  | nil => intro st hst; exact hst
  | cons s seeks ih =>
    intro st hst
    exact ih (renderToFrame frames w h s st)
      (renderToFrame_ok frames w h h3 st s hst).1

/-! ### Concrete frame sequences for counterexamples and witnesses -/

def pxR : Pixel := ⟨255, 0, 0, 255⟩
def pxB : Pixel := ⟨0, 0, 255, 255⟩

/-- Two frames whose first frame has disposal RestorePrevious (type 3). -/
def framesRestore : List Frame :=
  [mkFrame pxR 0 0 1 1 10 3, mkFrame pxB 1 0 1 1 10 0]

/-- Two frames with no RestorePrevious disposal (types 0 and 2), the first
with a zero delay. -/
def framesPlain : List Frame :=
  [mkFrame pxR 0 0 1 1 0 0, mkFrame pxB 1 0 1 1 20 2]

/-! ### Claim C1 -/

/-- C1, counterexample: on a two-frame sequence whose first frame has
disposal RestorePrevious, seeking to frame 0 and then to frame 1 leaves the
pixel at (0,0) different from the sequential composite of frames 0..1: the
seek path forgets the saved-for-restore buffer between calls (it is a local
of `renderToFrame`), so the forward-continuation path skips the restore. -/
theorem renderToFrame_deterministic_counterexample :
    (renderToFrame framesRestore 2 1 1
        (renderToFrame framesRestore 2 1 0 initSession)).canvas 0 0
      ≠ (compositeUpTo framesRestore 2).1 0 0 := by decide

/-- C1 (amended): provided no frame of the sequence uses disposal
RestorePrevious (type 3), the canvas produced by the snapshot-cache seek
path for any target index, after any prior sequence of seek requests, is
pixel-identical on the canvas region to compositing frames 0..target
sequentially from an empty canvas. -/
theorem renderToFrame_deterministic (frames : List Frame) (w h : Nat)
    (seeks : List Nat) (target : Nat)
    (h3 : ∀ f ∈ frames, f.disposalType ≠ 3)
    (hseeks : ∀ s ∈ seeks, s < frames.length)
    (htarget : target < frames.length) :
    ∀ x y, x < w → y < h →
      (renderToFrame frames w h target
          (seeks.foldl (fun st s => renderToFrame frames w h s st) initSession)).canvas x y
        = (compositeUpTo frames (target + 1)).1 x y := by
  have hInv := foldl_renderToFrame_inv frames w h h3 seeks initSession
    (initSession_inv frames w h)
  intro x y hx hy
  exact (renderToFrame_ok frames w h h3 _ target hInv).2 x y hx hy

/-- C1, witness: the amended theorem applied to a concrete disposal-3-free
sequence, the seek history [1, 0] and target 1, at pixel (0,0). -/
theorem renderToFrame_deterministic_witness :
    (renderToFrame framesPlain 2 1 1
        (List.foldl (fun st s => renderToFrame framesPlain 2 1 s st) initSession [1, 0])).canvas 0 0
      = (compositeUpTo framesPlain 2).1 0 0 :=
  renderToFrame_deterministic framesPlain 2 1 [1, 0] 1 (by decide) (by decide)
    (by decide) 0 0 (by decide) (by decide)

/-! ### Claim C3 -/

/-- C3, counterexample: a `renderToFrame` call with target 1 on a fresh
session stores a snapshot at index 0 — an index other than its target, and
the target 1 is not a multiple of the checkpoint interval, yet a snapshot
was added. -/
theorem renderToFrame_snapshot_keys_counterexample :
    ¬(1 % 10 = 0) ∧
    hasSnap (renderToFrame framesPlain 2 1 1 initSession).snapshots 0 = true ∧
    hasSnap initSession.snapshots 0 = false :=
  ⟨by decide, by decide, by decide⟩

/-- C3 (amended): after a `renderToFrame` call with target `t`, a snapshot
for index `j` exists iff it existed before the call or `j` lies in the
replayed range (from the chosen start frame up to `t`) and is a multiple of
the checkpoint interval 10; snapshots are stored at every replayed multiple
of 10, not only at the target index. -/
theorem renderToFrame_snapshot_keys (frames : List Frame) (w h target j : Nat)
    (st : SessionState) :
    hasSnap (renderToFrame frames w h target st).snapshots j = true ↔
      (hasSnap st.snapshots j = true ∨
        ((seekPlan st target).1 ≤ j ∧ j ≤ target ∧ j % 10 = 0)) := by
  have hle := seekPlan_le st target
  have hchar := renderLoopAux_hasSnap frames (target + 1 - (seekPlan st target).1)
    (seekPlan st target).1
    ((if (seekPlan st target).1 = 0 then clearRect st.canvas 0 0 w h
      else
        match (seekPlan st target).2 with
        | some snap => drawSnap (clearRect st.canvas 0 0 w h) snap w h
        | none => st.canvas), none)
    st.snapshots j
  constructor
  · intro hj
    rcases hchar.1 hj with hj2 | hj2
    · exact Or.inl hj2
    · exact Or.inr ⟨hj2.1, by omega, hj2.2.2⟩
  · intro hj
    apply hchar.2
    rcases hj with hj2 | hj2
    · exact Or.inl hj2
    · exact Or.inr ⟨hj2.1, by omega, hj2.2.2⟩

/-! ### Claim C2 -/

/-- C2: for every frame index processed by the sequential compositor, the
step decomposes in strict order: for `i > 0` the disposal of frame `i-1`
(`dispose`: no-op, rectangle clear, or full restore from the saved buffer)
is applied first, then — exactly when frame `i` itself has disposal type 3 —
the post-disposal pre-draw canvas is captured as the new saved buffer, and
only then is the patch of frame `i` alpha-composited; frame 0 receives no
pre-draw disposal step. -/
theorem compositor_ordering (frames : List Frame) (i : Nat) (fr prev : Frame)
    (hfr : frames.get? i = some fr) :
    (i = 0 →
      compositeUpTo frames 1 =
        (drawPatch emptyCanvas fr,
         if fr.disposalType = 3 then some emptyCanvas else none)) ∧
    (∀ j, i = j + 1 → frames.get? j = some prev →
      compositeUpTo frames (i + 1) =
        (drawPatch (dispose prev (compositeUpTo frames i).2 (compositeUpTo frames i).1) fr,
         if fr.disposalType = 3 then
           some (dispose prev (compositeUpTo frames i).2 (compositeUpTo frames i).1)
         else (compositeUpTo frames i).2)) := by
  constructor
  · intro hi
    subst hi
    show compStep frames 0 (compositeUpTo frames 0) = _
    rw [compStep_eq_some frames 0 fr _ hfr]
    have hpre : preDispose frames 0 (compositeUpTo frames 0) = emptyCanvas := by
      unfold preDispose
      simp
      rfl
    rw [hpre]
    rfl
  · intro j hij hprev
    subst hij
    show compStep frames (j + 1) (compositeUpTo frames (j + 1)) = _
    rw [compStep_eq_some frames (j + 1) fr _ hfr]
    have hpre : preDispose frames (j + 1) (compositeUpTo frames (j + 1)) =
        dispose prev (compositeUpTo frames (j + 1)).2 (compositeUpTo frames (j + 1)).1 := by
      unfold preDispose
      rw [if_pos (Nat.succ_pos j)]
      rw [Nat.add_sub_cancel, hprev]
    rw [hpre]

/-- C2, witness: the decomposition at index 1 of a concrete two-frame
sequence. -/
theorem compositor_ordering_witness :
    compositeUpTo framesPlain 2 =
      (drawPatch
        (dispose (mkFrame pxR 0 0 1 1 0 0) (compositeUpTo framesPlain 1).2
          (compositeUpTo framesPlain 1).1)
        (mkFrame pxB 1 0 1 1 20 2),
       if (mkFrame pxB 1 0 1 1 20 2).disposalType = 3 then
         some (dispose (mkFrame pxR 0 0 1 1 0 0) (compositeUpTo framesPlain 1).2
           (compositeUpTo framesPlain 1).1)
       else (compositeUpTo framesPlain 1).2) :=
  (compositor_ordering framesPlain 1 (mkFrame pxB 1 0 1 1 20 2)
    (mkFrame pxR 0 0 1 1 0 0) rfl).2 0 rfl rfl

/-! ### Claim C8 -/

/-- C8: when the previous frame has disposal RestorePrevious (type 3) but no
saved buffer exists, the disposal phase leaves the canvas completely
unchanged and the compositor step still proceeds to draw the current frame
without failing. -/
theorem restore_without_history (frames : List Frame) (i : Nat) (fr prev : Frame)
    (c : Canvas) (hi : 0 < i) (hfr : frames.get? i = some fr)
    (hprev : frames.get? (i - 1) = some prev) (hd : prev.disposalType = 3) :
    dispose prev none c = c ∧
    compStep frames i (c, none) =
      (drawPatch c fr, if fr.disposalType = 3 then some c else none) := by
  have hdisp : dispose prev none c = c := by
    unfold dispose
    rw [hd]
    rfl
  refine ⟨hdisp, ?_⟩
  rw [compStep_eq_some frames i fr _ hfr]
  have hpre : preDispose frames i (c, none) = c := by
    unfold preDispose
    rw [if_pos hi, hprev]
    exact hdisp
  rw [hpre]

/-- C8, witness: the theorem applied at index 1 of a concrete sequence whose
frame 0 has disposal type 3, with an empty saved buffer. -/
theorem restore_without_history_witness :
    dispose (mkFrame pxR 0 0 1 1 10 3) none emptyCanvas = emptyCanvas ∧
    compStep framesRestore 1 (emptyCanvas, none) =
      (drawPatch emptyCanvas (mkFrame pxB 1 0 1 1 10 0),
       if (mkFrame pxB 1 0 1 1 10 0).disposalType = 3 then some emptyCanvas else none) :=
  restore_without_history framesRestore 1 (mkFrame pxB 1 0 1 1 10 0)
    (mkFrame pxR 0 0 1 1 10 3) emptyCanvas (by decide) rfl rfl (by decide)

/-! ### Export characterization lemmas -/

theorem emitAux_delays (frames : List Frame) (cx cy cw ch : Nat) :
    ∀ (n i : Nat) (st : Canvas × Option Canvas), i + n = frames.length →
      (emitAux frames cx cy cw ch i st n).map Prod.snd =
        (frames.drop i).map Frame.delay := by
  intro n
  induction n with
  | zero =>
    intro i st hlen
    have hdrop : frames.drop i = [] := List.drop_eq_nil_of_le (by omega)
    simp [emitAux, hdrop]
  | succ n ih =>
    intro i st hlen
    have hi : i < frames.length := by omega
    have hget : frames.get? i = some (frames.get ⟨i, hi⟩) := List.get?_eq_get hi
    rw [List.drop_eq_get_cons hi]
    unfold emitAux
    rw [hget]
    simp only [List.map_cons]
    rw [ih (i + 1) _ (by omega)]

theorem emitAux_get (frames : List Frame) (cx cy cw ch : Nat) :
    ∀ (n i j : Nat), i + n = frames.length →
      (emitAux frames cx cy cw ch i (compositeUpTo frames i) n).get? j =
        if j < n then
          (frames.get? (i + j)).map
            (fun fr =>
              (cropExtract (compositeUpTo frames (i + j + 1)).1 cx cy cw ch, fr.delay))
        else none := by
  intro n
  induction n with
  | zero => intro i j hlen; simp [emitAux]
  | succ n ih =>
    intro i j hlen
    have hi : i < frames.length := by omega
    have hget : frames.get? i = some (frames.get ⟨i, hi⟩) := List.get?_eq_get hi
    have hstep : emitAux frames cx cy cw ch i (compositeUpTo frames i) (n + 1) =
        (cropExtract (compositeUpTo frames (i + 1)).1 cx cy cw ch,
          (frames.get ⟨i, hi⟩).delay) ::
          emitAux frames cx cy cw ch (i + 1) (compositeUpTo frames (i + 1)) n := by
      conv_lhs => rw [emitAux]
      rw [hget]
      rfl
    rw [hstep]
    match j with
    | 0 =>
      rw [if_pos (Nat.succ_pos n)]
      show some (cropExtract (compositeUpTo frames (i + 1)).1 cx cy cw ch,
          (frames.get ⟨i, hi⟩).delay) =
        Option.map
          (fun fr => (cropExtract (compositeUpTo frames (i + 1)).1 cx cy cw ch, fr.delay))
          (frames.get? i)
      rw [hget]
      rfl
    | Nat.succ j2 =>
      show (emitAux frames cx cy cw ch (i + 1) (compositeUpTo frames (i + 1)) n).get? j2 = _
      rw [ih (i + 1) j2 (by omega)]
      by_cases hj : j2 < n
      · rw [if_pos hj, if_pos (by omega)]
        have harith : i + 1 + j2 = i + (j2 + 1) := by omega
        rw [harith]
      · rw [if_neg hj, if_neg (by omega)]

theorem genAux_get (frames : List Frame) :
    ∀ (n i j : Nat), i + n = frames.length →
      (genAux frames i (compositeUpTo frames i) n).get? j =
        if j < n then
          (frames.get? (i + j)).map (fun _ => (compositeUpTo frames (i + j + 1)).1)
        else none := by
  intro n
  induction n with
  | zero => intro i j hlen; simp [genAux]
  | succ n ih =>
    intro i j hlen
    have hi : i < frames.length := by omega
    have hget : frames.get? i = some (frames.get ⟨i, hi⟩) := List.get?_eq_get hi
    have hstep : genAux frames i (compositeUpTo frames i) (n + 1) =
        (compositeUpTo frames (i + 1)).1 ::
          genAux frames (i + 1) (compositeUpTo frames (i + 1)) n := by
      conv_lhs => rw [genAux]
      rw [hget]
      rfl
    rw [hstep]
    match j with
    | 0 =>
      rw [if_pos (Nat.succ_pos n)]
      show some (compositeUpTo frames (i + 1)).1 =
        Option.map (fun _ => (compositeUpTo frames (i + 1)).1) (frames.get? i)
      rw [hget]
      rfl
    | Nat.succ j2 =>
      show (genAux frames (i + 1) (compositeUpTo frames (i + 1)) n).get? j2 = _
      rw [ih (i + 1) j2 (by omega)]
      by_cases hj : j2 < n
      · rw [if_pos hj, if_pos (by omega)]
        have harith : i + 1 + j2 = i + (j2 + 1) := by omega
        rw [harith]
      · rw [if_neg hj, if_neg (by omega)]

theorem cropGifFrames_get (frames : List Frame) (cx cy cw ch j : Nat) :
    (cropGifFrames frames cx cy cw ch).get? j =
      if j < frames.length then
        (frames.get? j).map
          (fun fr =>
            (cropExtract (compositeUpTo frames (j + 1)).1 cx cy cw ch, fr.delay))
      else none := by
  show (emitAux frames cx cy cw ch 0 (emptyCanvas, none) frames.length).get? j = _
  have h0 := emitAux_get frames cx cy cw ch frames.length 0 j (by omega)
  simp only [Nat.zero_add] at h0
  exact h0

theorem generateCompositedFrames_get (frames : List Frame) (j : Nat) :
    (generateCompositedFrames frames).get? j =
      if j < frames.length then
        (frames.get? j).map (fun _ => (compositeUpTo frames (j + 1)).1)
      else none := by
  show (genAux frames 0 (emptyCanvas, none) frames.length).get? j = _
  have h0 := genAux_get frames frames.length 0 j (by omega)
  simp only [Nat.zero_add] at h0
  exact h0

/-! ### Claim C6 -/

/-- C6: a frame whose delay is zero is displayed for the fixed 100 ms floor
during playback, while export (`cropGif`) emits every frame with its
original delay verbatim, with no floor applied. -/
theorem zero_delay_floor (fr : Frame) (hz : fr.delay = 0) :
    updateInterval (some fr) = 100 ∧
    ∀ (frames : List Frame) (cx cy cw ch : Nat),
      (cropGifFrames frames cx cy cw ch).map Prod.snd = frames.map Frame.delay := by
  constructor
  · simp [updateInterval, hz]
  · intro frames cx cy cw ch
    have h0 := emitAux_delays frames cx cy cw ch frames.length 0 (emptyCanvas, none)
      (by omega)
    simpa using h0

/-- C6, witness: the theorem applied to a concrete zero-delay frame and a
concrete two-frame export. -/
theorem zero_delay_floor_witness :
    updateInterval (some (mkFrame pxR 0 0 1 1 0 0)) = 100 ∧
    (cropGifFrames framesPlain 0 0 2 1).map Prod.snd = framesPlain.map Frame.delay :=
  ⟨(zero_delay_floor (mkFrame pxR 0 0 1 1 0 0) (by decide)).1,
   (zero_delay_floor (mkFrame pxR 0 0 1 1 0 0) (by decide)).2 framesPlain 0 0 2 1⟩

/-! ### Claim C7 -/

/-- C7: the export pass composites only the frames of the slice it is given
on its own fresh canvas: the first exported frame receives no pre-draw
disposal at all (its output is just its patch drawn on an empty canvas), and
export over the full range with a full-canvas crop agrees pixel for pixel,
frame by frame, with the full sequential composite. -/
theorem export_slicing (frames : List Frame) (w h cx cy cw ch : Nat) :
    (∀ f0, frames.get? 0 = some f0 →
      (cropGifFrames frames cx cy cw ch).get? 0 =
        some (cropExtract (drawPatch emptyCanvas f0) cx cy cw ch, f0.delay)) ∧
    (∀ j x y, x < w → y < h →
      ((cropGifFrames frames 0 0 w h).get? j).map (fun p => p.1 x y) =
        ((generateCompositedFrames frames).get? j).map (fun c => c x y)) := by
  constructor
  · intro f0 hf0
    rw [cropGifFrames_get]
    have hlen : 0 < frames.length := by
      cases frames with
      | nil => cases hf0
      | cons a l => simp
    rw [if_pos hlen, hf0]
    have h1 : (compositeUpTo frames 1).1 = drawPatch emptyCanvas f0 := by
      show (compStep frames 0 (compositeUpTo frames 0)).1 = _
      rw [compStep_eq_some frames 0 f0 _ hf0]
      have hpre : preDispose frames 0 (compositeUpTo frames 0) = emptyCanvas := by
        unfold preDispose
        simp
        rfl
      rw [hpre]
    rw [h1]
    rfl
  · intro j x y hx hy
    rw [cropGifFrames_get, generateCompositedFrames_get]
    by_cases hj : j < frames.length
    · rw [if_pos hj, if_pos hj]
      have hfr : frames.get? j = some (frames.get ⟨j, hj⟩) := List.get?_eq_get hj
      rw [hfr]
      show some (cropExtract (compositeUpTo frames (j + 1)).1 0 0 w h x y) =
        some ((compositeUpTo frames (j + 1)).1 x y)
      congr 1
      show (if x < w ∧ y < h then
          Pixel.over ((compositeUpTo frames (j + 1)).1 (0 + x) (0 + y)) Pixel.transparent
        else Pixel.transparent) = _
      rw [if_pos ⟨hx, hy⟩, Nat.zero_add, Nat.zero_add]
      exact Pixel.over_transparent _ (seqCanvas_canonical frames (j + 1) x y)
    · rw [if_neg hj, if_neg hj]
      rfl

/-- C7, witness: the theorem applied to a concrete two-frame sequence, for
the first exported frame and for pixel (1,0) of exported frame 1. -/
theorem export_slicing_witness :
    (cropGifFrames framesRestore 0 0 2 1).get? 0 =
      some (cropExtract (drawPatch emptyCanvas (mkFrame pxR 0 0 1 1 10 3)) 0 0 2 1,
        (mkFrame pxR 0 0 1 1 10 3).delay) ∧
    ((cropGifFrames framesRestore 0 0 2 1).get? 1).map (fun p => p.1 1 0) =
      ((generateCompositedFrames framesRestore).get? 1).map (fun c => c 1 0) :=
  ⟨(export_slicing framesRestore 2 1 0 0 2 1).1 (mkFrame pxR 0 0 1 1 10 3) rfl,
   (export_slicing framesRestore 2 1 0 0 2 1).2 1 1 0 (by decide) (by decide)⟩

/-! ### Claim C4 -/

theorem clampTo_le (v lo hi : Int) : clampTo v lo hi ≤ hi :=
  min_le_right _ _

theorem le_clampTo (v lo hi : Int) (h : lo ≤ hi) : lo ≤ clampTo v lo hi :=
  le_min (le_max_right v lo) h

/-- C4, counterexample: a crop request with `x = 10` on a 4×4 canvas
violates `x + width ≤ canvasWidth`, yet export does not reject it: the
rectangle is silently clamped to `(3, 0, 1, 2)` and the export proceeds,
emitting one output frame per trimmed input frame. -/
theorem geometry_rejected_counterexample :
    ¬((10 : Int) + 2 ≤ 4) ∧
    exportCropRect 4 4 ⟨10, 0, 2, 2⟩ = (3, 0, 1, 2) ∧
    (handleExport ⟨framesPlain, 4, 4⟩ 0 1 (some ⟨10, 0, 2, 2⟩) none).length = 2 :=
  ⟨by decide, by decide, rfl⟩

/-- C4 (amended): export never rejects a crop rectangle; instead
`handleExport` silently clamps each value into the canvas, and the clamped
rectangle always satisfies the geometry invariants (x ≥ 0, y ≥ 0,
width ≥ 1, height ≥ 1, x + width ≤ canvasWidth, y + height ≤ canvasHeight)
whenever the canvas is nonempty. -/
theorem geometry_clamped_valid (gw gh : Nat) (c : PixelCrop) (x y cw ch : Int)
    (hw : 1 ≤ gw) (hh : 1 ≤ gh)
    (hr : exportCropRect gw gh c = (x, y, cw, ch)) :
    0 ≤ x ∧ 0 ≤ y ∧ 1 ≤ cw ∧ 1 ≤ ch ∧
    x + cw ≤ (gw : Int) ∧ y + ch ≤ (gh : Int) := by
  simp only [exportCropRect, Prod.mk.injEq] at hr
  obtain ⟨hx, hy, hcw, hch⟩ := hr
  subst hx
  subst hy
  subst hcw
  subst hch
  have hgw1 : (0 : Int) ≤ (gw : Int) - 1 := by omega
  have hgh1 : (0 : Int) ≤ (gh : Int) - 1 := by omega
  have hx1 := le_clampTo c.x 0 ((gw : Int) - 1) hgw1
  have hx2 := clampTo_le c.x 0 ((gw : Int) - 1)
  have hy1 := le_clampTo c.y 0 ((gh : Int) - 1) hgh1
  have hy2 := clampTo_le c.y 0 ((gh : Int) - 1)
  have hw1 : (1 : Int) ≤ (gw : Int) - clampTo c.x 0 ((gw : Int) - 1) := by omega
  have hh1 : (1 : Int) ≤ (gh : Int) - clampTo c.y 0 ((gh : Int) - 1) := by omega
  have hcw1 := le_clampTo c.width 1 ((gw : Int) - clampTo c.x 0 ((gw : Int) - 1)) hw1
  have hcw2 := clampTo_le c.width 1 ((gw : Int) - clampTo c.x 0 ((gw : Int) - 1))
  have hch1 := le_clampTo c.height 1 ((gh : Int) - clampTo c.y 0 ((gh : Int) - 1)) hh1
  have hch2 := clampTo_le c.height 1 ((gh : Int) - clampTo c.y 0 ((gh : Int) - 1))
  exact ⟨by omega, by omega, hcw1, hch1, by omega, by omega⟩

/-- C4, witness: the amended theorem applied to the out-of-bounds request
`(10, 0, 2, 2)` on a 4×4 canvas, whose clamped result is `(3, 0, 1, 2)`. -/
theorem geometry_clamped_valid_witness :
    (0 : Int) ≤ 3 ∧ (0 : Int) ≤ 0 ∧ (1 : Int) ≤ 1 ∧ (1 : Int) ≤ 2 ∧
    (3 : Int) + 1 ≤ ((4 : Nat) : Int) ∧ (0 : Int) + 2 ≤ ((4 : Nat) : Int) :=
  geometry_clamped_valid 4 4 ⟨10, 0, 2, 2⟩ 3 0 1 2 (by decide) (by decide) (by decide)

/-! ### Claim C5 -/

/-- Invariant of the seek gate: at most one seek render in flight, and the
`isRenderingRef` flag tracks it exactly. -/
def gateInv (g : GateState) : Prop :=
  g.seekInFlight ≤ 1 ∧ (g.isRendering = true ↔ g.seekInFlight = 1)

theorem processSeekQueue_inv (g : GateState) (h : gateInv g) :
    gateInv (processSeekQueue g) := by
  unfold processSeekQueue
  by_cases hr : g.isRendering = true
  · simp only [hr, if_true, if_pos]
    exact h
  · have hrf : g.isRendering = false := by
      cases hb : g.isRendering
      · rfl
      · exact absurd hb hr
    have h0 : g.seekInFlight = 0 := by
      have hne : ¬g.seekInFlight = 1 := fun h1 => by
        rw [h.2.2 h1] at hrf
        cases hrf
      have := h.1
      omega
    rw [hrf]
    simp only [Bool.false_eq_true, if_false]
    match hn : g.nextSeek with
    | some t =>
      constructor
      · simp [h0]
      · simp [h0]
    | none => exact h

theorem stepGate_inv (g : GateState) (e : GateEvent) (h : gateInv g) :
    gateInv (stepGate g e) := by
  cases e with
  | seek n => exact processSeekQueue_inv _ ⟨h.1, h.2⟩
  | finishSeek =>
    show gateInv (if g.seekInFlight = 0 then g
      else processSeekQueue { g with isRendering := false, seekInFlight := g.seekInFlight - 1 })
    by_cases h0 : g.seekInFlight = 0
    · rw [if_pos h0]
      exact h
    · rw [if_neg h0]
      apply processSeekQueue_inv
      constructor
      · show g.seekInFlight - 1 ≤ 1
        have := h.1
        omega
      · constructor
        · intro hfalse
          have : False := by simpa using hfalse
          exact this.elim
        · intro h1
          have h1x : g.seekInFlight - 1 = 1 := h1
          have := h.1
          exact absurd h1x (by omega)
  | tick => exact ⟨h.1, h.2⟩
  | finishTick => exact ⟨h.1, h.2⟩

theorem runGate_inv (evs : List GateEvent) :
    ∀ g : GateState, gateInv g → gateInv (runGate g evs) := by
  induction evs with
  | nil => intro g h; exact h
  | cons e evs ih =>
    intro g h
    exact ih (stepGate g e) (stepGate_inv g e h)

/-- C5, counterexample: a playback tick that fires while a seek render is
still in flight starts a second render — after the events
[seek 0, tick] two renders are in flight at once, because the playback loop
calls `renderToFrame` directly without consulting the gate. -/
theorem single_flight_counterexample :
    ¬((runGate initGate [GateEvent.seek 0, GateEvent.tick]).seekInFlight +
        (runGate initGate [GateEvent.seek 0, GateEvent.tick]).tickInFlight ≤ 1) := by
  decide

/-- C5 (amended): manual seeks are single-flight — in every event
interleaving at most one seek-initiated render is in flight, and a seek
request made while one is in flight only overwrites the single pending
slot — but playback ticks bypass the gate entirely: a tick starts a render
directly, leaving `isRenderingRef` and the pending slot untouched, so a
tick render can overlap a seek render. -/
theorem single_flight_gate :
    (∀ evs : List GateEvent, (runGate initGate evs).seekInFlight ≤ 1) ∧
    (∀ g : GateState, g.isRendering = true →
      (stepGate g (GateEvent.seek 5)).nextSeek = some 5) ∧
    (∀ g : GateState,
      (stepGate g GateEvent.tick).isRendering = g.isRendering ∧
      (stepGate g GateEvent.tick).nextSeek = g.nextSeek ∧
      (stepGate g GateEvent.tick).tickInFlight = g.tickInFlight + 1) := by
  refine ⟨?_, ?_, ?_⟩
  · intro evs
    have hinit : gateInv initGate := by
      constructor
      · decide
      · constructor
        · intro h; cases h
        · intro h; cases h
    exact (runGate_inv evs initGate hinit).1
  · intro g hr
    show (processSeekQueue { g with nextSeek := some 5 }).nextSeek = some 5
    unfold processSeekQueue
    simp [hr]
  · intro g
    exact ⟨rfl, rfl, rfl⟩

/-- C5, witness: the amended theorem instantiated at the trace
[seek 0, finishSeek, seek 3, tick], a rendering gate state, and an
arbitrary concrete gate state. -/
theorem single_flight_gate_witness :
    (runGate initGate
        [GateEvent.seek 0, GateEvent.finishSeek, GateEvent.seek 3,
          GateEvent.tick]).seekInFlight ≤ 1 ∧
    (stepGate ⟨true, some 2, 1, 0⟩ (GateEvent.seek 5)).nextSeek = some 5 ∧
    (stepGate ⟨true, some 2, 1, 0⟩ GateEvent.tick).tickInFlight = 0 + 1 :=
  ⟨single_flight_gate.1
      [GateEvent.seek 0, GateEvent.finishSeek, GateEvent.seek 3, GateEvent.tick],
   single_flight_gate.2.1 ⟨true, some 2, 1, 0⟩ rfl,
   (single_flight_gate.2.2 ⟨true, some 2, 1, 0⟩).2.2⟩

/-! ### Claim C9 -/

/-- C9: the parsed animation dimensions are the first frame patch rectangle
dimensions, not the logical screen size — `parseGifFile` succeeds exactly
on a nonempty frame list, reports `frames[0].dims.width/height`, ignores the
logical screen descriptor entirely, and the no-crop export canvas is sized
by exactly these reported dimensions. -/
theorem parse_uses_first_frame_dims (g : ParsedGif) (d : GifData)
    (hok : parseGifFile g = Except.ok d) :
    (∃ f0 rest, g.frames = f0 :: rest ∧ d.width = f0.width ∧ d.height = f0.height ∧
      d.frames = g.frames) ∧
    (∀ lw lh, parseGifFile ⟨lw, lh, g.frames⟩ = parseGifFile g) ∧
    (handleExport d 0 (d.frames.length - 1) none none =
      cropGifFrames d.frames 0 0 d.width d.height) := by
  obtain ⟨lw0, lh0, frames0⟩ := g
  cases frames0 with
  | nil => simp [parseGifFile] at hok
  | cons f0 rest =>
    have hd : d = ⟨f0 :: rest, f0.width, f0.height⟩ := by
      have := hok
      simp only [parseGifFile] at this
      exact (Except.ok.injEq _ _ ▸ this).symm
    subst hd
    refine ⟨⟨f0, rest, rfl, rfl, rfl, rfl⟩, ?_, ?_⟩
    · intro lw lh
      rfl
    · show cropGifFrames
        (((f0 :: rest).drop 0).take ((f0 :: rest).length - 1 + 1 - 0)) 0 0
          f0.width f0.height =
        cropGifFrames (f0 :: rest) 0 0 f0.width f0.height
      have hlen : (f0 :: rest).length - 1 + 1 - 0 = (f0 :: rest).length := by
        simp
      rw [List.drop_zero, hlen, List.take_length]

/-- C9, witness: a frame list whose single frame has a 4×4 patch inside a
10×10 logical screen parses to 4×4 dimensions, identically to parsing with
the correct 4×4 screen. -/
theorem parse_uses_first_frame_dims_witness :
    parseGifFile ⟨10, 10, [mkFrame pxR 0 0 4 4 10 0]⟩ =
      parseGifFile ⟨4, 4, [mkFrame pxR 0 0 4 4 10 0]⟩ :=
  (parse_uses_first_frame_dims ⟨4, 4, [mkFrame pxR 0 0 4 4 10 0]⟩
    ⟨[mkFrame pxR 0 0 4 4 10 0], 4, 4⟩ rfl).2.1 10 10

/-! ### Claim C10 -/

/-- C10: every manual seek (`handleSeek`, reached by timeline clicks,
playhead drags and arrow-key steps alike) unconditionally stops playback —
`isPlaying` becomes false — while setting the current frame and writing the
seek into the single pending slot (still pending if a render is in
flight). -/
theorem handleSeek_stops_playback (st : EditorState) (i : Nat) :
    (handleSeek st i).isPlaying = false ∧
    (handleSeek st i).currentFrameIdx = i ∧
    (st.gate.isRendering = true → (handleSeek st i).gate.nextSeek = some i) := by
  refine ⟨rfl, rfl, ?_⟩
  intro hr
  show (processSeekQueue { st.gate with nextSeek := some i }).nextSeek = some i
  unfold processSeekQueue
  simp [hr]

/-- C10, witness: the theorem applied to a concrete playing editor state
with a render in flight. -/
theorem handleSeek_stops_playback_witness :
    (handleSeek ⟨3, true, ⟨true, none, 1, 0⟩⟩ 5).isPlaying = false ∧
    (handleSeek ⟨3, true, ⟨true, none, 1, 0⟩⟩ 5).currentFrameIdx = 5 ∧
    (handleSeek ⟨3, true, ⟨true, none, 1, 0⟩⟩ 5).gate.nextSeek = some 5 :=
  ⟨(handleSeek_stops_playback ⟨3, true, ⟨true, none, 1, 0⟩⟩ 5).1,
   (handleSeek_stops_playback ⟨3, true, ⟨true, none, 1, 0⟩⟩ 5).2.1,
   (handleSeek_stops_playback ⟨3, true, ⟨true, none, 1, 0⟩⟩ 5).2.2 rfl⟩

end GifUtils
